import Mathlib

/-!
Shallow embedding of the Windy Gridworld temporal-difference program
(`main.py`): grid primitives, winds, the board transition model, the
action-value store, the Sarsa control loop and the policy renderer.
Python floats are modelled as rationals; the `random` calls of the control
loop are modelled by an explicit oracle (`StepRand`) supplying each step's
Bernoulli outcomes and uniform choices; Python exceptions are modelled by
`Except GridError`.
-/

/-- A grid position (x, y), with structural equality (`Position.__eq__`). -/
structure Position where
  x : Int
  y : Int
deriving DecidableEq

/-- A move on the grid, e.g. (+3, -2) (`Move`). -/
structure Move where
  dx : Int
  dy : Int
deriving DecidableEq

/-- `Move.__add__`: component-wise addition of moves. -/
def Move.add (a b : Move) : Move := ⟨a.dx + b.dx, a.dy + b.dy⟩

/-- `Position.move`: new position after the move on an infinite grid. -/
def Position.move (p : Position) (m : Move) : Position := ⟨p.x + m.dx, p.y + m.dy⟩

/-- `dict.get(k, dflt)` on an integer-keyed table (wind-speed tables). -/
def dictGetD : List (Int × Int) → Int → Int → Int
  | [], _, dflt => dflt
  | (k, v) :: rest, key, dflt => if k = key then v else dictGetD rest key dflt

/-- `SouthWind`: wind blowing upwards, speed keyed on x. -/
structure SouthWind where
  wind_speed : List (Int × Int)

/-- `SouthWind.blow`: the move the wind contributes. -/
def SouthWind.blow (w : SouthWind) (position : Position) : Move :=
  ⟨0, dictGetD w.wind_speed position.x 0⟩

/-- `WestWind`: wind blowing to the right, speed keyed on y. -/
structure WestWind where
  wind_speed : List (Int × Int)

/-- `WestWind.blow`: the move the wind contributes. -/
def WestWind.blow (w : WestWind) (position : Position) : Move :=
  ⟨dictGetD w.wind_speed position.y 0, 0⟩

/-- The exceptions the program can raise: `InvalidPositionException`,
`IndexError` from indexing/`max` on an empty move list, and `KeyError`
from the unguarded `Q[(pos, chosen_move)]` read. -/
inductive GridError
  | invalidPosition
  | emptyMoves
  | keyError
deriving DecidableEq

/-- `Board`: max_x, max_y (width-1, height-1) plus the wind's `blow`
capability. -/
structure Board where
  max_x : Int
  max_y : Int
  wind : Position → Move

/-- `Board.__init__(width, height, wind)`. -/
def Board.ofSize (width height : Int) (wind : Position → Move) : Board :=
  ⟨width - 1, height - 1, wind⟩

/-- `Board._restrict_to_board`: clamp each coordinate into the board. -/
def Board.restrict_to_board (b : Board) (position : Position) : Position :=
  ⟨min b.max_x (max 0 position.x), min b.max_y (max 0 position.y)⟩

/-- The condition under which `Board._check_position` raises. -/
def Board.off_board (b : Board) (position : Position) : Bool :=
  position.x < 0 || b.max_x < position.x || position.y < 0 || b.max_y < position.y

/-- `Board.move`: check the input position, add the agent move and the wind
blown at the input position, apply, clamp. -/
def Board.move (b : Board) (position : Position) (agent_move : Move) :
    Except GridError Position :=
  if b.off_board position then
    .error .invalidPosition
  else
    .ok (b.restrict_to_board (position.move (agent_move.add (b.wind position))))

/-- `Board.dimensions`. -/
def Board.dimensions (b : Board) : Int × Int := (b.max_x, b.max_y)

/-- The loop of `max_arg`: fold over the remaining values carrying the
current index, best index and best value; a value wins only if strictly
greater than the best so far. -/
def maxArgLoop : List ℚ → Nat → Nat → ℚ → Nat
  | [], _, max_index, _ => max_index
  | val :: rest, idx, max_index, max_value =>
    if max_value < val then maxArgLoop rest (idx + 1) idx val
    else maxArgLoop rest (idx + 1) max_index max_value

/-- `max_arg`: index of the highest value, lowest index on ties; `none`
models the `IndexError` raised on an empty list. -/
def max_arg : List ℚ → Option Nat
  | [] => none
  | val :: rest => some (maxArgLoop (val :: rest) 0 0 val)

/-- Keys of the action-value store: (position, move) pairs. -/
abbrev QKey := Position × Move

/-- The action-value store `Q`: an insertion-ordered dictionary. -/
abbrev QTable := List (QKey × ℚ)

/-- Dictionary lookup (first match; keys are unique by construction). -/
def qlookup : QTable → QKey → Option ℚ
  | [], _ => none
  | (k, v) :: rest, key => if k = key then some v else qlookup rest key

/-- `Q.get(key, dflt)`: lookup with a default, never mutating. -/
def qget (Q : QTable) (key : QKey) (dflt : ℚ) : ℚ := (qlookup Q key).getD dflt

/-- `Q.setdefault(key, d)`: return the stored value if present, else insert
`d` and return it; yields the value and the possibly-extended table. -/
def qsetdefault (Q : QTable) (key : QKey) (d : ℚ) : ℚ × QTable :=
  match qlookup Q key with
  | some v => (v, Q)
  | none => (d, Q ++ [(key, d)])

/-- `Q[key] = v` on a present key (in-place update, order preserved). -/
def qset : QTable → QKey → ℚ → QTable
  | [], key, v => [(key, v)]
  | (k, w) :: rest, key, v =>
    if k = key then (k, v) :: rest else (k, w) :: qset rest key v

/-- The list comprehension `[Q.setdefault((pos, m), default) for m in moves]`:
threads the store through the successive `setdefault` calls. -/
def qsetdefaultList (Q : QTable) (pos : Position) : List Move → ℚ → List ℚ × QTable
  | [], _ => ([], Q)
  | m :: rest, d =>
    let vd := qsetdefault Q (pos, m) d
    let rec_result := qsetdefaultList vd.2 pos rest d
    (vd.1 :: rec_result.1, rec_result.2)

/-- `default_action_value()`: initial estimate of a state-action pair. -/
def default_action_value : ℚ := 1

/-- The random draws one step of `generate_strategy` may consume: the two
Bernoulli trials against epsilon and the two uniform choices among the
allowed moves. A branch not taken simply ignores its draws. -/
structure StepRand where
  explore : Bool
  exploreMove : Move
  explore2 : Bool
  explore2Move : Move

/-- The state the control loop threads: the episode position and the
action-value store. -/
structure StratState where
  pos : Position
  Q : QTable
deriving DecidableEq

/-- The greedy selection of the control loop: materialize the action values
of all allowed moves at `pos` via `setdefault`, then index by `max_arg`. -/
def greedySelect (Q : QTable) (pos : Position) (allowed_moves : List Move) :
    Except GridError (Move × QTable) :=
  let vals_Q1 := qsetdefaultList Q pos allowed_moves default_action_value
  match max_arg vals_Q1.1 with
  | none => .error .emptyMoves
  | some i =>
    match allowed_moves.get? i with
    | none => .error .emptyMoves
    | some m => .ok (m, vals_Q1.2)

/-- The epsilon-greedy selection used for the second (TD-target) move: with
the oracle's Bernoulli outcome, a uniform random move, else greedy. -/
def epsGreedySelect (Q : QTable) (pos : Position) (allowed_moves : List Move)
    (explore : Bool) (randMove : Move) : Except GridError (Move × QTable) :=
  if explore then
    if allowed_moves.isEmpty then .error .emptyMoves else .ok (randMove, Q)
  else greedySelect Q pos allowed_moves

/-- One iteration of the `for _step in range(total_steps)` loop of
`generate_strategy`. -/
def sarsaStep (board : Board) (start_pos goal_pos : Position) (alpha gamma : ℚ)
    (allowed_moves : List Move) (r : StepRand) (s : StratState) :
    Except GridError StratState :=
  if r.explore then
    if allowed_moves.isEmpty then .error .emptyMoves else .ok s
  else do
    let cQ1 ← greedySelect s.Q s.pos allowed_moves
    let chosen_move := cQ1.1
    let new_pos ← board.move s.pos chosen_move
    let nQ2 ← epsGreedySelect cQ1.2 new_pos allowed_moves r.explore2 r.explore2Move
    let vQ3 := qsetdefault nQ2.2 (new_pos, nQ2.1) default_action_value
    let new_pos_val := gamma * vQ3.1
    match qlookup vQ3.2 (s.pos, chosen_move) with
    | none => .error .keyError
    | some cur =>
      let value_increment :=
        alpha * (new_pos_val - cur) + (if new_pos = goal_pos then alpha * 100 else 0)
      .ok ⟨if new_pos = goal_pos then start_pos else new_pos,
           qset vQ3.2 (s.pos, chosen_move) (cur + value_increment)⟩

/-- The whole `for` loop of `generate_strategy`, one `StepRand` per step. -/
def runSteps (board : Board) (start_pos goal_pos : Position) (alpha gamma : ℚ)
    (allowed_moves : List Move) : List StepRand → StratState →
    Except GridError StratState
  | [], s => .ok s
  | r :: rest, s => do
    runSteps board start_pos goal_pos alpha gamma allowed_moves rest
      (← sarsaStep board start_pos goal_pos alpha gamma allowed_moves r s)

/-- `generate_strategy`: run the Sarsa loop from the cloned start position
and the empty store, returning the final episode state and store. -/
def generate_strategy (board : Board) (start_pos goal_pos : Position)
    (alpha gamma : ℚ) (allowed_moves : List Move) (rands : List StepRand) :
    Except GridError StratState :=
  runSteps board start_pos goal_pos alpha gamma allowed_moves rands ⟨start_pos, []⟩

/-- The keys of `move_symbol_map`, in insertion order (`allowed_moves`). -/
def symKeys (move_symbol_map : List (Move × String)) : List Move :=
  move_symbol_map.map Prod.fst

/-- `move_symbol_map[m]`. -/
def symLookup : List (Move × String) → Move → Option String
  | [], _ => none
  | (k, v) :: rest, key => if k = key then some v else symLookup rest key

/-- The `vals` list of `print_policy.moveSymbol`:
`[Q.get((position, m), -1) for m in allowed_moves]`. -/
def policyVals (Q : QTable) (allowed_moves : List Move) (position : Position) :
    List ℚ :=
  allowed_moves.map (fun m => qget Q (position, m) (-1))

/-- `print_policy.moveSymbol`: "@" at the goal, "*" when `max(vals) == -1`,
else the symbol of the move selected by `max_arg`; `none` models the
exceptions raised on an empty move list. -/
def moveSymbol (Q : QTable) (move_symbol_map : List (Move × String))
    (goal_position : Position) (position : Position) : Option String :=
  if position = goal_position then some "@"
  else
    match policyVals Q (symKeys move_symbol_map) position with
    | [] => none
    | v :: vs =>
      if vs.foldl max v = -1 then some "*"
      else
        match max_arg (v :: vs) with
        | none => none
        | some i =>
          match (symKeys move_symbol_map).get? i with
          | none => none
          | some m => symLookup move_symbol_map m

/-- `range(n+1)` as integers 0, 1, ..., n (empty when n < 0). -/
def intRangeUp (n : Int) : List Int :=
  if n < 0 then [] else (List.range (n.toNat + 1)).map Int.ofNat

/-- `range(n, -1, -1)` as integers n, n-1, ..., 0 (empty when n < 0). -/
def intRangeDown (n : Int) : List Int :=
  if n < 0 then [] else (List.range (n.toNat + 1)).map (fun i => n - Int.ofNat i)

/-- The `symbols` grid of `print_policy`: one row per y from max_y down to
0, one cell per x from 0 to max_x. -/
def print_policy (board : Board) (Q : QTable)
    (move_symbol_map : List (Move × String)) (goal_position : Position) :
    List (List (Option String)) :=
  (intRangeDown board.max_y).map
    (fun y => (intRangeUp board.max_x).map
      (fun x => moveSymbol Q move_symbol_map goal_position ⟨x, y⟩))

/-! ### Bounds helpers -/

/-- The board's inclusive coordinate box. -/
def inBounds (b : Board) (p : Position) : Prop :=
  0 ≤ p.x ∧ p.x ≤ b.max_x ∧ 0 ≤ p.y ∧ p.y ≤ b.max_y

instance (b : Board) (p : Position) : Decidable (inBounds b p) := by
  unfold inBounds; infer_instance

lemma off_board_false_of_inBounds {b : Board} {p : Position} (h : inBounds b p) :
    b.off_board p = false := by
  obtain ⟨h1, h2, h3, h4⟩ := h
  simp [Board.off_board]
  omega

lemma move_ok_of_inBounds {b : Board} {p : Position} (h : inBounds b p) (a : Move) :
    b.move p a =
      .ok ⟨min b.max_x (max 0 (p.x + a.dx + (b.wind p).dx)),
           min b.max_y (max 0 (p.y + a.dy + (b.wind p).dy))⟩ := by
  rw [Board.move, off_board_false_of_inBounds h]
  simp [Board.restrict_to_board, Position.move, Move.add, add_assoc]

lemma move_result_inBounds {b : Board} {p q : Position} {a : Move}
    (h : inBounds b p) (hq : b.move p a = .ok q) : inBounds b q := by
  rw [move_ok_of_inBounds h a] at hq
  obtain ⟨h1, h2, h3, h4⟩ := h
  cases hq
  constructor
  · simp only []; omega
  refine ⟨?_, ?_, ?_⟩ <;> simp only [] <;> omega

/-- C1: for an in-bounds input position `p` and any agent displacement `a`,
`Board.move p a` returns exactly `p` translated by the component-wise sum of
`a` and the wind evaluated at `p`, with each coordinate clamped into
`[0, max_x]` resp. `[0, max_y]`; in particular the result is in bounds. -/
theorem board_move_clamped_sum (b : Board) (p : Position) (a : Move)
    (h : inBounds b p) :
    b.move p a =
      .ok ⟨min b.max_x (max 0 (p.x + a.dx + (b.wind p).dx)),
           min b.max_y (max 0 (p.y + a.dy + (b.wind p).dy))⟩ ∧
    ∀ q : Position, b.move p a = .ok q → inBounds b q :=
  ⟨move_ok_of_inBounds h a, fun _ hq => move_result_inBounds h hq⟩

/-- Witness for C1: on the 10×7 board with south wind 1 at x = 4, moving
(0,0) from the in-bounds position (4,3) lands at (4,4). -/
theorem board_move_clamped_sum_witness :
    inBounds (Board.ofSize 10 7 (SouthWind.blow ⟨[(4, 1)]⟩)) ⟨4, 3⟩ ∧
    (Board.ofSize 10 7 (SouthWind.blow ⟨[(4, 1)]⟩)).move ⟨4, 3⟩ ⟨0, 0⟩ = .ok ⟨4, 4⟩ := by
  refine ⟨by decide, ?_⟩
  have h := (board_move_clamped_sum (Board.ofSize 10 7 (SouthWind.blow ⟨[(4, 1)]⟩))
    ⟨4, 3⟩ ⟨0, 0⟩ (by decide)).1
  rw [h]
  congr 1

/-- C6: `Board.move` fails with the invalid-position error exactly when the
input position lies outside `[0, max_x] × [0, max_y]`, and when it does, the
same error results for every agent displacement and every wind, so no
displacement is consumed to produce a result. -/
theorem board_move_invalid_iff (b : Board) (p : Position) (a : Move) :
    (b.move p a = .error .invalidPosition ↔ ¬ inBounds b p) ∧
    (¬ inBounds b p → ∀ (a' : Move) (w : Position → Move),
      Board.move ⟨b.max_x, b.max_y, w⟩ p a' = .error .invalidPosition) := by
  constructor
  · constructor
    · intro hmv hin
      rw [Board.move, off_board_false_of_inBounds hin] at hmv
      simp at hmv
    · intro hin
      rw [Board.move]
      have : b.off_board p = true := by
        simp only [inBounds, not_and_or] at hin
        simp [Board.off_board]
        omega
      rw [this]
      simp
  · intro hin a' w
    rw [Board.move]
    have : Board.off_board ⟨b.max_x, b.max_y, w⟩ p = true := by
      simp only [inBounds, not_and_or] at hin
      simp [Board.off_board]
      omega
    rw [this]
    simp

/-- Witness for C6: on a 5×7 zero-wind board, position (9,3) is out of
bounds and `move` fails with the invalid-position error. -/
theorem board_move_invalid_iff_witness :
    ¬ inBounds (Board.ofSize 5 7 (fun _ => ⟨0, 0⟩)) ⟨9, 3⟩ ∧
    (Board.ofSize 5 7 (fun _ => ⟨0, 0⟩)).move ⟨9, 3⟩ ⟨1, 0⟩ =
      .error .invalidPosition := by
  refine ⟨by decide, ?_⟩
  exact (board_move_invalid_iff (Board.ofSize 5 7 (fun _ => ⟨0, 0⟩)) ⟨9, 3⟩
    ⟨1, 0⟩).1.mpr (by decide)

/-! ### max_arg: least-index argmax -/

lemma maxArgLoop_of_no_improvement (l : List ℚ) :
    ∀ (idx mi : Nat) (mv : ℚ), (∀ k, k < l.length → l.getD k 0 ≤ mv) →
      maxArgLoop l idx mi mv = mi := by
  induction l with
  | nil => intro idx mi mv _; rfl
  | cons v rest ih =>
    intro idx mi mv h
    have h0 : v ≤ mv := by simpa using h 0 (by simp)
    rw [maxArgLoop, if_neg (not_lt.mpr h0)]
    exact ih (idx + 1) mi mv (fun k hk => by simpa using h (k + 1) (by simpa using hk))

lemma maxArgLoop_of_improvement (l : List ℚ) :
    ∀ (idx mi : Nat) (mv : ℚ), (∃ k, k < l.length ∧ mv < l.getD k 0) →
      ∃ k, k < l.length ∧ maxArgLoop l idx mi mv = idx + k ∧ mv < l.getD k 0 ∧
        (∀ j, j < l.length → l.getD j 0 ≤ l.getD k 0) ∧
        (∀ j, j < k → l.getD j 0 < l.getD k 0) := by
  induction l with
  | nil => intro idx mi mv h; obtain ⟨k, hk, _⟩ := h; simp at hk
  | cons v rest ih =>
    intro idx mi mv h
    by_cases hvc : mv < v
    · rw [maxArgLoop, if_pos hvc]
      by_cases hex : ∃ k, k < rest.length ∧ v < rest.getD k 0
      · obtain ⟨k', hk', hres, hlt, hmax, hleast⟩ := ih (idx + 1) idx v hex
        refine ⟨k' + 1, by simpa using hk', by omega, ?_, ?_, ?_⟩
        · simpa using lt_trans hvc hlt
        · intro j hj
          cases j with
          | zero => simpa using le_of_lt hlt
          | succ j' => simpa using hmax j' (by simpa using hj)
        · intro j hj
          cases j with
          | zero => simpa using hlt
          | succ j' => simpa using hleast j' (by omega)
      · push_neg at hex
        rw [maxArgLoop_of_no_improvement rest (idx + 1) idx v hex]
        refine ⟨0, by simp, by omega, by simpa using hvc, ?_, by omega⟩
        intro j hj
        cases j with
        | zero => simp
        | succ j' => simpa using hex j' (by simpa using hj)
    · rw [maxArgLoop, if_neg hvc]
      have hex : ∃ k', k' < rest.length ∧ mv < rest.getD k' 0 := by
        obtain ⟨k, hk, hlt⟩ := h
        cases k with
        | zero => simp at hlt; exact absurd hlt hvc
        | succ k' => exact ⟨k', by simpa using hk, by simpa using hlt⟩
      obtain ⟨k', hk', hres, hlt, hmax, hleast⟩ := ih (idx + 1) mi mv hex
      have hvmv : v ≤ mv := not_lt.mp hvc
      refine ⟨k' + 1, by simpa using hk', by omega, by simpa using hlt, ?_, ?_⟩
      · intro j hj
        cases j with
        | zero => simpa using le_of_lt (lt_of_le_of_lt hvmv hlt)
        | succ j' => simpa using hmax j' (by simpa using hj)
      · intro j hj
        cases j with
        | zero => simpa using lt_of_le_of_lt hvmv hlt
        | succ j' => simpa using hleast j' (by omega)

lemma max_arg_spec (l : List ℚ) (h : l ≠ []) :
    ∃ i, max_arg l = some i ∧ i < l.length ∧
      (∀ j, j < l.length → l.getD j 0 ≤ l.getD i 0) ∧
      (∀ j, j < i → l.getD j 0 < l.getD i 0) := by
  match l with
  | [] => exact absurd rfl h
  | v :: rest =>
    rw [max_arg]
    by_cases hex : ∃ k, k < (v :: rest).length ∧ v < (v :: rest).getD k 0
    · obtain ⟨k, hk, hres, _, hmax, hleast⟩ :=
        maxArgLoop_of_improvement (v :: rest) 0 0 v hex
      exact ⟨k, by rw [hres]; simp, hk, hmax, hleast⟩
    · push_neg at hex
      rw [maxArgLoop_of_no_improvement (v :: rest) 0 0 v hex]
      refine ⟨0, rfl, by simp, ?_, by omega⟩
      intro j hj
      simpa using hex j hj

/-- C4: on every non-empty list, `max_arg` returns an index of a maximum
value, and when several entries tie for the maximum it returns the lowest
such index (every strictly earlier entry is strictly smaller); this is the
maximization used by both the control loop's exploit choice and the
renderer. -/
theorem max_arg_least_index_max (l : List ℚ) (h : l ≠ []) :
    ∃ i, max_arg l = some i ∧ i < l.length ∧
      (∀ j, j < l.length → l.getD j 0 ≤ l.getD i 0) ∧
      (∀ j, j < i → l.getD j 0 < l.getD i 0) :=
  max_arg_spec l h

/-- Witness for C4 at the list [1, 3, 3, 2]. -/
theorem max_arg_least_index_max_witness :
    ([(1 : ℚ), 3, 3, 2] ≠ []) ∧
    ∃ i, max_arg [(1 : ℚ), 3, 3, 2] = some i ∧ i < 4 ∧
      (∀ j, j < ([(1 : ℚ), 3, 3, 2] : List ℚ).length →
        ([(1 : ℚ), 3, 3, 2] : List ℚ).getD j 0 ≤ ([(1 : ℚ), 3, 3, 2] : List ℚ).getD i 0) ∧
      (∀ j, j < i → ([(1 : ℚ), 3, 3, 2] : List ℚ).getD j 0 <
        ([(1 : ℚ), 3, 3, 2] : List ℚ).getD i 0) :=
  ⟨by simp, max_arg_least_index_max [(1 : ℚ), 3, 3, 2] (by simp)⟩

/-! ### Action-value store lemmas -/

lemma qlookup_append_of_none {Q : QTable} {k : QKey} (h : qlookup Q k = none)
    (d : ℚ) : qlookup (Q ++ [(k, d)]) k = some d := by
  induction Q with
  | nil => simp [qlookup]
  | cons kv rest ih =>
    obtain ⟨k', v'⟩ := kv
    rw [qlookup] at h
    by_cases hk : k' = k
    · rw [if_pos hk] at h; exact absurd h (by simp)
    · rw [if_neg hk] at h
      rw [List.cons_append, qlookup, if_neg hk]
      exact ih h

lemma qlookup_append_other {Q : QTable} {k k' : QKey} (h : k ≠ k') (d : ℚ) :
    qlookup (Q ++ [(k, d)]) k' = qlookup Q k' := by
  induction Q with
  | nil => simp [qlookup, h]
  | cons kv rest ih =>
    obtain ⟨k0, v0⟩ := kv
    rw [List.cons_append, qlookup, qlookup]
    by_cases hk : k0 = k'
    · rw [if_pos hk, if_pos hk]
    · rw [if_neg hk, if_neg hk]; exact ih

lemma qset_lookup_self (Q : QTable) (k : QKey) (v : ℚ) :
    qlookup (qset Q k v) k = some v := by
  induction Q with
  | nil => simp [qset, qlookup]
  | cons kv rest ih =>
    obtain ⟨k0, v0⟩ := kv
    rw [qset]
    by_cases hk : k0 = k
    · rw [if_pos hk, qlookup, if_pos hk]
    · rw [if_neg hk, qlookup, if_neg hk]; exact ih

lemma qset_lookup_other (Q : QTable) (k k' : QKey) (v : ℚ) (h : k' ≠ k) :
    qlookup (qset Q k v) k' = qlookup Q k' := by
  induction Q with
  | nil => simp [qset, qlookup, Ne.symm h]
  | cons kv rest ih =>
    obtain ⟨k0, v0⟩ := kv
    rw [qset]
    by_cases hk : k0 = k
    · rw [if_pos hk, qlookup, qlookup]
      have : k0 ≠ k' := by rw [hk]; exact fun hh => h hh.symm
      rw [if_neg this, if_neg this]
    · rw [if_neg hk, qlookup, qlookup]
      by_cases hk' : k0 = k'
      · rw [if_pos hk', if_pos hk']
      · rw [if_neg hk', if_neg hk']; exact ih

lemma qsetdefault_lookup_self (Q : QTable) (k : QKey) (d : ℚ) :
    qlookup (qsetdefault Q k d).2 k = some (qsetdefault Q k d).1 := by
  rw [qsetdefault]
  cases h : qlookup Q k with
  | none => exact qlookup_append_of_none h d
  | some v => exact h

lemma qsetdefault_lookup_other (Q : QTable) (k k' : QKey) (d : ℚ) (h : k ≠ k') :
    qlookup (qsetdefault Q k d).2 k' = qlookup Q k' := by
  rw [qsetdefault]
  cases hq : qlookup Q k with
  | none => exact qlookup_append_other h d
  | some v => rfl

/-- C8: `setdefault` with the fixed default 1 inserts an absent key at 1 and
returns 1, a second lookup with no intervening write returns that same
value, and on a present key it returns the stored value leaving the store
unchanged; `default_action_value` is the constant 1. -/
theorem setdefault_lazy_default (Q : QTable) (k : QKey) :
    (qlookup Q k = none →
      qsetdefault Q k default_action_value = (1, Q ++ [(k, 1)]) ∧
      qlookup (Q ++ [(k, 1)]) k = some 1 ∧
      qsetdefault (Q ++ [(k, 1)]) k default_action_value = (1, Q ++ [(k, 1)])) ∧
    (∀ v, qlookup Q k = some v → qsetdefault Q k default_action_value = (v, Q)) ∧
    default_action_value = 1 := by
  refine ⟨?_, ?_, rfl⟩
  · intro h
    have h1 : qlookup (Q ++ [(k, (1 : ℚ))]) k = some 1 := qlookup_append_of_none h 1
    refine ⟨by rw [qsetdefault, h]; rfl, h1, by rw [qsetdefault, h1]⟩
  · intro v h
    rw [qsetdefault, h]

/-- Witness for C8 on the empty store and a concrete key. -/
theorem setdefault_lazy_default_witness :
    qlookup [] ((⟨0, 0⟩ : Position), (⟨1, 0⟩ : Move)) = none ∧
    qsetdefault [] ((⟨0, 0⟩ : Position), (⟨1, 0⟩ : Move)) default_action_value =
      (1, [(((⟨0, 0⟩ : Position), (⟨1, 0⟩ : Move)), 1)]) ∧
    qlookup [(((⟨0, 0⟩ : Position), (⟨1, 0⟩ : Move)), (1 : ℚ))]
      ((⟨0, 0⟩ : Position), (⟨1, 0⟩ : Move)) = some 1 ∧
    qsetdefault [(((⟨0, 0⟩ : Position), (⟨1, 0⟩ : Move)), (1 : ℚ))]
      ((⟨0, 0⟩ : Position), (⟨1, 0⟩ : Move)) default_action_value =
      (1, [(((⟨0, 0⟩ : Position), (⟨1, 0⟩ : Move)), 1)]) := by
  have h := (setdefault_lazy_default [] ((⟨0, 0⟩ : Position), (⟨1, 0⟩ : Move))).1 rfl
  exact ⟨rfl, by simpa using h.1, by simpa using h.2.1, by simpa using h.2.2⟩

/-! ### Control-loop step characterization -/

lemma ebind_ok {e a b : Type} (x : a) (f : a -> Except e b) :
    (Except.ok x >>= f : Except e b) = f x := rfl

lemma ebind_error {e a b : Type} (err : e) (f : a -> Except e b) :
    (Except.error err >>= f : Except e b) = Except.error err := rfl

/-- C2: a step whose first Bernoulli trial succeeds (the exploration
branch) leaves the episode state — position and action-value store — fully
unchanged, and its outcome does not depend on the transition model at all:
no board call and no store write happens in that branch. -/
theorem explore_step_frame (board : Board) (start_pos goal_pos : Position)
    (alpha gamma : ℚ) (allowed_moves : List Move) (r : StepRand) (s : StratState)
    (hr : r.explore = true) (hne : allowed_moves ≠ []) :
    sarsaStep board start_pos goal_pos alpha gamma allowed_moves r s = .ok s ∧
    ∀ board' : Board,
      sarsaStep board' start_pos goal_pos alpha gamma allowed_moves r s = .ok s := by
  have key : ∀ board' : Board,
      sarsaStep board' start_pos goal_pos alpha gamma allowed_moves r s = .ok s := by
    intro board'
    cases allowed_moves with
    | nil => exact absurd rfl hne
    | cons m ms => simp [sarsaStep, hr, List.isEmpty]
  exact ⟨key board, key⟩

/-- Concrete fixtures for witnesses. -/
def tR : Move := ⟨1, 0⟩

def tL : Move := ⟨-1, 0⟩

def tBoard : Board := Board.ofSize 2 1 (fun _ => ⟨0, 0⟩)

def tStart : Position := ⟨0, 0⟩

def tGoal : Position := ⟨1, 0⟩

/-- Witness for C2: an exploring step on a concrete board is a no-op. -/
theorem explore_step_frame_witness :
    (⟨true, tR, false, tR⟩ : StepRand).explore = true ∧
    ([tR, tL] : List Move) ≠ [] ∧
    sarsaStep tBoard tStart tGoal 1 1 [tR, tL] ⟨true, tR, false, tR⟩
      ⟨tStart, []⟩ = .ok ⟨tStart, []⟩ :=
  ⟨rfl, by simp,
    (explore_step_frame tBoard tStart tGoal 1 1 [tR, tL] ⟨true, tR, false, tR⟩
      ⟨tStart, []⟩ rfl (by simp)).1⟩

lemma sarsaStep_exploit_eq (board : Board) (start_pos goal_pos : Position)
    (alpha gamma : ℚ) (allowed_moves : List Move) (r : StepRand) (s : StratState)
    (c n : Move × QTable) (q : Position) (cur : ℚ)
    (hr : r.explore = false)
    (hg : greedySelect s.Q s.pos allowed_moves = .ok c)
    (hm : board.move s.pos c.1 = .ok q)
    (he : epsGreedySelect c.2 q allowed_moves r.explore2 r.explore2Move = .ok n)
    (hl : qlookup (qsetdefault n.2 (q, n.1) default_action_value).2 (s.pos, c.1) =
      some cur) :
    sarsaStep board start_pos goal_pos alpha gamma allowed_moves r s =
      .ok ⟨if q = goal_pos then start_pos else q,
           qset (qsetdefault n.2 (q, n.1) default_action_value).2 (s.pos, c.1)
             (cur + (alpha * (gamma * (qsetdefault n.2 (q, n.1) default_action_value).1 - cur) +
               (if q = goal_pos then alpha * 100 else 0)))⟩ := by
  simp only [sarsaStep, hr, Bool.false_eq_true, if_false, hg, ebind_ok, hm, he, hl]

lemma sarsaStep_exploit_inv (board : Board) (start_pos goal_pos : Position)
    (alpha gamma : ℚ) (allowed_moves : List Move) (r : StepRand) (s s' : StratState)
    (hr : r.explore = false)
    (hstep : sarsaStep board start_pos goal_pos alpha gamma allowed_moves r s = .ok s') :
    ∃ (c n : Move × QTable) (q : Position) (cur : ℚ),
      greedySelect s.Q s.pos allowed_moves = .ok c ∧
      board.move s.pos c.1 = .ok q ∧
      epsGreedySelect c.2 q allowed_moves r.explore2 r.explore2Move = .ok n ∧
      qlookup (qsetdefault n.2 (q, n.1) default_action_value).2 (s.pos, c.1) = some cur ∧
      s' = ⟨if q = goal_pos then start_pos else q,
            qset (qsetdefault n.2 (q, n.1) default_action_value).2 (s.pos, c.1)
              (cur + (alpha * (gamma * (qsetdefault n.2 (q, n.1) default_action_value).1 - cur) +
                (if q = goal_pos then alpha * 100 else 0)))⟩ := by
  simp only [sarsaStep, hr, Bool.false_eq_true, if_false] at hstep
  cases hg : greedySelect s.Q s.pos allowed_moves with
  | error e => rw [hg, ebind_error] at hstep; simp at hstep
  | ok c =>
    rw [hg, ebind_ok] at hstep
    cases hm : board.move s.pos c.1 with
    | error e => rw [hm, ebind_error] at hstep; simp at hstep
    | ok q =>
      rw [hm, ebind_ok] at hstep
      cases he : epsGreedySelect c.2 q allowed_moves r.explore2 r.explore2Move with
      | error e => rw [he, ebind_error] at hstep; simp at hstep
      | ok n =>
        rw [he, ebind_ok] at hstep
        cases hl : qlookup (qsetdefault n.2 (q, n.1) default_action_value).2
            (s.pos, c.1) with
        | none => rw [hl] at hstep; simp at hstep
        | some cur =>
          rw [hl] at hstep
          refine ⟨c, n, q, cur, rfl, hm, he, hl, ?_⟩
          injection hstep with h2
          exact h2.symm

/-- C5: in any non-exploration step that succeeds, the next episode position
is the configured start position exactly when the position computed by the
transition model is the goal, and that computed position otherwise —
independently of the contents of the action-value store. -/
theorem episode_reset_to_start (board : Board) (start_pos goal_pos : Position)
    (alpha gamma : ℚ) (allowed_moves : List Move) (r : StepRand) (s s' : StratState)
    (c : Move × QTable) (q : Position)
    (hr : r.explore = false)
    (hstep : sarsaStep board start_pos goal_pos alpha gamma allowed_moves r s = .ok s')
    (hg : greedySelect s.Q s.pos allowed_moves = .ok c)
    (hm : board.move s.pos c.1 = .ok q) :
    s'.pos = if q = goal_pos then start_pos else q := by
  obtain ⟨c', n, q', cur, hg', hm', he', hl', hs'⟩ :=
    sarsaStep_exploit_inv board start_pos goal_pos alpha gamma allowed_moves r s s' hr hstep
  rw [hg] at hg'
  injection hg' with hc
  subst hc
  rw [hm] at hm'
  injection hm' with hq
  subst hq
  rw [hs']

/-- C3: in any successful non-exploration step taken at `s.pos` with chosen
move `c.1`, resulting position `q` and second (epsilon-greedy) move `n.1`,
the store entry for `(s.pos, c.1)` changes by exactly
`alpha * (gamma * Q(q, n.1) - Q(s.pos, c.1))` — the estimates read from the
store at update time — plus `alpha * 100` exactly when `q` is the goal; no
other entry's value is changed by the update. -/
theorem td_update_increment (board : Board) (start_pos goal_pos : Position)
    (alpha gamma : ℚ) (allowed_moves : List Move) (r : StepRand) (s s' : StratState)
    (c n : Move × QTable) (q : Position)
    (hr : r.explore = false)
    (hstep : sarsaStep board start_pos goal_pos alpha gamma allowed_moves r s = .ok s')
    (hg : greedySelect s.Q s.pos allowed_moves = .ok c)
    (hm : board.move s.pos c.1 = .ok q)
    (he : epsGreedySelect c.2 q allowed_moves r.explore2 r.explore2Move = .ok n) :
    qget s'.Q (s.pos, c.1) 0 =
      qget (qsetdefault n.2 (q, n.1) default_action_value).2 (s.pos, c.1) 0 +
        (alpha * (gamma * qget (qsetdefault n.2 (q, n.1) default_action_value).2 (q, n.1) 0 -
          qget (qsetdefault n.2 (q, n.1) default_action_value).2 (s.pos, c.1) 0) +
         (if q = goal_pos then alpha * 100 else 0)) ∧
    ∀ k : QKey, k ≠ (s.pos, c.1) →
      qlookup s'.Q k = qlookup (qsetdefault n.2 (q, n.1) default_action_value).2 k := by
  obtain ⟨c', n', q', cur, hg', hm', he', hl', hs'⟩ :=
    sarsaStep_exploit_inv board start_pos goal_pos alpha gamma allowed_moves r s s' hr hstep
  rw [hg] at hg'
  injection hg' with hc
  subst hc
  rw [hm] at hm'
  injection hm' with hq
  subst hq
  rw [he] at he'
  injection he' with hn
  subst hn
  subst hs'
  constructor
  · have hcur : qget (qsetdefault n.2 (q, n.1) default_action_value).2 (s.pos, c.1) 0 = cur := by
      rw [qget, hl']
      rfl
    have hv : qget (qsetdefault n.2 (q, n.1) default_action_value).2 (q, n.1) 0 =
        (qsetdefault n.2 (q, n.1) default_action_value).1 := by
      rw [qget, qsetdefault_lookup_self]
      rfl
    show qget (qset (qsetdefault n.2 (q, n.1) default_action_value).2 (s.pos, c.1) _)
      (s.pos, c.1) 0 = _
    rw [qget, qset_lookup_self]
    rw [Option.getD_some, hcur, hv]
  · intro k hk
    show qlookup (qset (qsetdefault n.2 (q, n.1) default_action_value).2 (s.pos, c.1) _) k = _
    exact qset_lookup_other _ _ _ _ hk

/-- Fixture: the store after greedy materialization at `tStart`. -/
def tQ1 : QTable := [((tStart, tR), 1), ((tStart, tL), 1)]

/-- Fixture: the store after the goal-reaching step below. -/
def tQfin : QTable := [((tStart, tR), 101), ((tStart, tL), 1), ((tGoal, tR), 1)]

/-- Witness for C5: with alpha = gamma = 1 on the 2×1 zero-wind board, a
non-exploring step from (0,0) reaches the goal (1,0) and the next position
is the start again. -/
theorem episode_reset_to_start_witness :
    (⟨false, tR, true, tR⟩ : StepRand).explore = false ∧
    sarsaStep tBoard tStart tGoal 1 1 [tR, tL] ⟨false, tR, true, tR⟩ ⟨tStart, []⟩ =
      .ok ⟨tStart, tQfin⟩ ∧
    greedySelect [] tStart [tR, tL] = .ok (tR, tQ1) ∧
    tBoard.move tStart tR = .ok tGoal ∧
    (⟨tStart, tQfin⟩ : StratState).pos = if tGoal = tGoal then tStart else tGoal := by
  have hstep : sarsaStep tBoard tStart tGoal 1 1 [tR, tL] ⟨false, tR, true, tR⟩
      ⟨tStart, []⟩ = .ok ⟨tStart, tQfin⟩ := by
    norm_num [sarsaStep, ebind_ok, ebind_error, greedySelect, epsGreedySelect,
      qsetdefaultList, qsetdefault, qlookup, max_arg, maxArgLoop, Board.move,
      Board.off_board, Board.restrict_to_board, Position.move, Move.add,
      default_action_value, qset, tBoard, tStart, tGoal, tR, tL, tQfin, Board.ofSize]
  have hfinal := episode_reset_to_start tBoard tStart tGoal 1 1 [tR, tL]
    ⟨false, tR, true, tR⟩ ⟨tStart, []⟩ ⟨tStart, tQfin⟩ (tR, tQ1) tGoal rfl hstep rfl rfl
  exact ⟨rfl, hstep, rfl, rfl, hfinal⟩

/-- Witness for C3 on the same concrete goal-reaching step: the entry for
(start, R) moves from 1 to 101 = 1 + (1·(1·1 − 1) + 100), and the (start, L)
entry is untouched by the update. -/
theorem td_update_increment_witness :
    (⟨false, tR, true, tR⟩ : StepRand).explore = false ∧
    sarsaStep tBoard tStart tGoal 1 1 [tR, tL] ⟨false, tR, true, tR⟩ ⟨tStart, []⟩ =
      .ok ⟨tStart, tQfin⟩ ∧
    greedySelect [] tStart [tR, tL] = .ok (tR, tQ1) ∧
    tBoard.move tStart tR = .ok tGoal ∧
    epsGreedySelect tQ1 tGoal [tR, tL] true tR = .ok (tR, tQ1) ∧
    qget tQfin (tStart, tR) 0 =
      qget (qsetdefault tQ1 (tGoal, tR) default_action_value).2 (tStart, tR) 0 +
        (1 * (1 * qget (qsetdefault tQ1 (tGoal, tR) default_action_value).2 (tGoal, tR) 0 -
          qget (qsetdefault tQ1 (tGoal, tR) default_action_value).2 (tStart, tR) 0) +
         (if tGoal = tGoal then 1 * 100 else 0)) ∧
    qlookup tQfin (tStart, tL) =
      qlookup (qsetdefault tQ1 (tGoal, tR) default_action_value).2 (tStart, tL) := by
  have hstep : sarsaStep tBoard tStart tGoal 1 1 [tR, tL] ⟨false, tR, true, tR⟩
      ⟨tStart, []⟩ = .ok ⟨tStart, tQfin⟩ := by
    norm_num [sarsaStep, ebind_ok, ebind_error, greedySelect, epsGreedySelect,
      qsetdefaultList, qsetdefault, qlookup, max_arg, maxArgLoop, Board.move,
      Board.off_board, Board.restrict_to_board, Position.move, Move.add,
      default_action_value, qset, tBoard, tStart, tGoal, tR, tL, tQfin, Board.ofSize]
  have h := td_update_increment tBoard tStart tGoal 1 1 [tR, tL]
    ⟨false, tR, true, tR⟩ ⟨tStart, []⟩ ⟨tStart, tQfin⟩ (tR, tQ1) (tR, tQ1) tGoal
    rfl hstep rfl rfl rfl
  exact ⟨rfl, hstep, rfl, rfl, rfl, h.1, h.2 (tStart, tL) (by decide)⟩

/-! ### Materialization of default entries -/

lemma qlookup_append_isSome {Q : QTable} {k : QKey} (X : QTable)
    (h : (qlookup Q k).isSome = true) : (qlookup (Q ++ X) k).isSome = true := by
  induction Q with
  | nil => simp [qlookup] at h
  | cons kv rest ih =>
    obtain ⟨k0, v0⟩ := kv
    rw [qlookup] at h
    rw [List.cons_append, qlookup]
    by_cases hk : k0 = k
    · rw [if_pos hk]; rfl
    · rw [if_neg hk] at h ⊢; exact ih h

lemma qsetdefault_preserves_isSome {Q : QTable} {k : QKey} (k' : QKey) (d : ℚ)
    (h : (qlookup Q k).isSome = true) :
    (qlookup (qsetdefault Q k' d).2 k).isSome = true := by
  rw [qsetdefault]
  cases hq : qlookup Q k' with
  | some v => exact h
  | none => exact qlookup_append_isSome _ h

lemma qset_preserves_isSome {Q : QTable} {k : QKey} (k' : QKey) (v : ℚ)
    (h : (qlookup Q k).isSome = true) :
    (qlookup (qset Q k' v) k).isSome = true := by
  by_cases hk : k = k'
  · subst hk; rw [qset_lookup_self]; rfl
  · rw [qset_lookup_other Q k' k v hk]; exact h

lemma qsetdefaultList_preserves_isSome {Q : QTable} {k : QKey} (pos : Position)
    (moves : List Move) (d : ℚ) (h : (qlookup Q k).isSome = true) :
    (qlookup (qsetdefaultList Q pos moves d).2 k).isSome = true := by
  induction moves generalizing Q with
  | nil => exact h
  | cons m rest ih =>
    rw [qsetdefaultList]
    exact ih (qsetdefault_preserves_isSome (pos, m) d h)

lemma qsetdefaultList_materializes (Q : QTable) (pos : Position)
    (moves : List Move) (d : ℚ) :
    ∀ m ∈ moves, (qlookup (qsetdefaultList Q pos moves d).2 (pos, m)).isSome = true := by
  induction moves generalizing Q with
  | nil => intro m hm; simp at hm
  | cons m0 rest ih =>
    intro m hm
    rw [qsetdefaultList]
    rcases List.mem_cons.mp hm with hm0 | hmr
    · subst hm0
      refine qsetdefaultList_preserves_isSome pos rest d ?_
      rw [qsetdefault_lookup_self]; rfl
    · exact ih _ m hmr

lemma greedySelect_ok_parts {Q : QTable} {pos : Position} {al : List Move}
    {c : Move × QTable} (h : greedySelect Q pos al = .ok c) :
    c.2 = (qsetdefaultList Q pos al default_action_value).2 ∧ c.1 ∈ al := by
  rw [greedySelect] at h
  cases hma : max_arg (qsetdefaultList Q pos al default_action_value).1 with
  | none => rw [hma] at h; dsimp only at h; simp at h
  | some i =>
    rw [hma] at h
    dsimp only at h
    cases hget : al.get? i with
    | none => rw [hget] at h; simp at h
    | some m =>
      rw [hget] at h
      injection h with h1
      rw [← h1]
      exact ⟨rfl, List.get?_mem hget⟩

lemma greedySelect_error_eq {Q : QTable} {pos : Position} {al : List Move}
    {e : GridError} (h : greedySelect Q pos al = .error e) : e = .emptyMoves := by
  rw [greedySelect] at h
  cases hma : max_arg (qsetdefaultList Q pos al default_action_value).1 with
  | none => rw [hma] at h; dsimp only at h; injection h with h1; exact h1.symm
  | some i =>
    rw [hma] at h
    dsimp only at h
    cases hget : al.get? i with
    | none => rw [hget] at h; injection h with h1; exact h1.symm
    | some m => rw [hget] at h; simp at h

lemma board_move_error_eq {b : Board} {p : Position} {a : Move} {e : GridError}
    (h : b.move p a = .error e) : e = .invalidPosition := by
  rw [Board.move] at h
  by_cases hob : b.off_board p
  · rw [if_pos hob] at h; injection h with h1; exact h1.symm
  · rw [if_neg hob] at h; simp at h

lemma epsGreedySelect_error_eq {Q : QTable} {pos : Position} {al : List Move}
    {ex : Bool} {rm : Move} {e : GridError}
    (h : epsGreedySelect Q pos al ex rm = .error e) : e = .emptyMoves := by
  rw [epsGreedySelect] at h
  cases ex with
  | true =>
    rw [if_pos rfl] at h
    by_cases hemp : al.isEmpty
    · rw [if_pos hemp] at h; injection h with h1; exact h1.symm
    · rw [if_neg hemp] at h; simp at h
  | false =>
    rw [if_neg (by simp)] at h
    exact greedySelect_error_eq h

lemma epsGreedySelect_preserves_isSome {Q : QTable} {k : QKey} {pos : Position}
    {al : List Move} {ex : Bool} {rm : Move} {n : Move × QTable}
    (hn : epsGreedySelect Q pos al ex rm = .ok n)
    (h : (qlookup Q k).isSome = true) : (qlookup n.2 k).isSome = true := by
  rw [epsGreedySelect] at hn
  cases ex with
  | true =>
    rw [if_pos rfl] at hn
    by_cases hemp : al.isEmpty
    · rw [if_pos hemp] at hn; simp at hn
    · rw [if_neg hemp] at hn
      injection hn with h1
      rw [← h1]
      exact h
  | false =>
    rw [if_neg (by simp)] at hn
    rw [(greedySelect_ok_parts hn).1]
    exact qsetdefaultList_preserves_isSome pos al default_action_value h

lemma sarsaStep_no_keyError (board : Board) (start_pos goal_pos : Position)
    (alpha gamma : ℚ) (allowed_moves : List Move) (r : StepRand) (s : StratState) :
    sarsaStep board start_pos goal_pos alpha gamma allowed_moves r s ≠
      .error .keyError := by
  by_cases hr : r.explore
  · simp only [sarsaStep, hr, if_true]
    by_cases hemp : allowed_moves.isEmpty
    · rw [if_pos hemp]; simp
    · rw [if_neg hemp]; simp
  · simp only [sarsaStep, hr, Bool.false_eq_true, if_false]
    cases hg : greedySelect s.Q s.pos allowed_moves with
    | error e =>
      rw [ebind_error]
      rw [greedySelect_error_eq hg]
      simp
    | ok c =>
      rw [ebind_ok]
      cases hm : board.move s.pos c.1 with
      | error e =>
        rw [ebind_error, board_move_error_eq hm]
        simp
      | ok q =>
        rw [ebind_ok]
        cases he : epsGreedySelect c.2 q allowed_moves r.explore2 r.explore2Move with
        | error e =>
          rw [ebind_error, epsGreedySelect_error_eq he]
          simp
        | ok n =>
          rw [ebind_ok]
          have hsome : (qlookup (qsetdefault n.2 (q, n.1) default_action_value).2
              (s.pos, c.1)).isSome = true := by
            obtain ⟨hc2, hc1⟩ := greedySelect_ok_parts hg
            have h0 : (qlookup c.2 (s.pos, c.1)).isSome = true := by
              rw [hc2]
              exact qsetdefaultList_materializes s.Q s.pos allowed_moves
                default_action_value c.1 hc1
            exact qsetdefault_preserves_isSome _ _
              (epsGreedySelect_preserves_isSome he h0)
          cases hl : qlookup (qsetdefault n.2 (q, n.1) default_action_value).2
              (s.pos, c.1) with
          | none => rw [hl] at hsome; simp at hsome
          | some cur => simp

/-- C10 (amended): after a successful non-exploration step at `s.pos` with
resulting position `q` and second move `n.1`, the store holds entries for
`(s.pos, m)` for every allowed `m` and for `(q, n.1)`; when the second
selection was itself non-exploratory it also holds `(q, m)` for every
allowed `m`; and the unguarded read/update of `(pos, chosen_move)` can
never raise: no step returns the key-error. -/
theorem greedy_materializes_entries (board : Board) (start_pos goal_pos : Position)
    (alpha gamma : ℚ) (allowed_moves : List Move) (r : StepRand) (s s' : StratState)
    (c n : Move × QTable) (q : Position)
    (hr : r.explore = false)
    (hstep : sarsaStep board start_pos goal_pos alpha gamma allowed_moves r s = .ok s')
    (hg : greedySelect s.Q s.pos allowed_moves = .ok c)
    (hm : board.move s.pos c.1 = .ok q)
    (he : epsGreedySelect c.2 q allowed_moves r.explore2 r.explore2Move = .ok n) :
    (∀ m ∈ allowed_moves, (qlookup s'.Q (s.pos, m)).isSome = true) ∧
    ((qlookup s'.Q (q, n.1)).isSome = true) ∧
    (r.explore2 = false → ∀ m ∈ allowed_moves, (qlookup s'.Q (q, m)).isSome = true) ∧
    (∀ (board' : Board) (s0 : StratState),
      sarsaStep board' start_pos goal_pos alpha gamma allowed_moves r s0 ≠
        .error .keyError) := by
  obtain ⟨c', n', q', cur, hg', hm', he', hl', hs'⟩ :=
    sarsaStep_exploit_inv board start_pos goal_pos alpha gamma allowed_moves r s s' hr hstep
  rw [hg] at hg'
  injection hg' with hc
  subst hc
  rw [hm] at hm'
  injection hm' with hq
  subst hq
  rw [he] at he'
  injection he' with hn
  subst hn
  subst hs'
  refine ⟨?_, ?_, ?_, ?_⟩
  · intro m hmem
    have h0 : (qlookup c.2 (s.pos, m)).isSome = true := by
      rw [(greedySelect_ok_parts hg).1]
      exact qsetdefaultList_materializes s.Q s.pos allowed_moves
        default_action_value m hmem
    exact qset_preserves_isSome _ _
      (qsetdefault_preserves_isSome _ _ (epsGreedySelect_preserves_isSome he h0))
  · refine qset_preserves_isSome _ _ ?_
    rw [qsetdefault_lookup_self]
    rfl
  · intro hex2 m hmem
    rw [hex2] at he
    rw [epsGreedySelect, if_neg (by simp)] at he
    have h0 : (qlookup n.2 (q, m)).isSome = true := by
      rw [(greedySelect_ok_parts he).1]
      exact qsetdefaultList_materializes c.2 q allowed_moves default_action_value m hmem
    exact qset_preserves_isSome _ _ (qsetdefault_preserves_isSome _ _ h0)
  · intro board' s0
    exact sarsaStep_no_keyError board' start_pos goal_pos alpha gamma allowed_moves r s0

/-- Fixture: resulting position of the counterexample step below. -/
def tP10 : Position := ⟨1, 0⟩

/-- Fixture: the store after the counterexample step below. -/
def tQce : QTable := [((tStart, tR), 1), ((tStart, tL), 1), ((tP10, tR), 1)]

/-- Counterexample to C10 as stated: a non-exploration step whose second
selection explores (second Bernoulli trial succeeds) materializes at the
resulting position (1,0) only the single sampled move, so the entry for
((1,0), L) — with L an allowed displacement — is absent after the step. -/
theorem greedy_materializes_counterexample :
    (⟨false, tR, true, tR⟩ : StepRand).explore = false ∧
    sarsaStep tBoard tStart ⟨5, 5⟩ 1 1 [tR, tL] ⟨false, tR, true, tR⟩ ⟨tStart, []⟩ =
      .ok ⟨tP10, tQce⟩ ∧
    greedySelect [] tStart [tR, tL] = .ok (tR, tQ1) ∧
    tBoard.move tStart tR = .ok tP10 ∧
    tL ∈ [tR, tL] ∧
    qlookup tQce (tP10, tL) = none := by
  refine ⟨rfl, ?_, rfl, rfl, by simp, rfl⟩
  norm_num [sarsaStep, ebind_ok, ebind_error, greedySelect, epsGreedySelect,
    qsetdefaultList, qsetdefault, qlookup, max_arg, maxArgLoop, Board.move,
    Board.off_board, Board.restrict_to_board, Position.move, Move.add,
    default_action_value, qset, tBoard, tStart, tP10, tQce, tR, tL, Board.ofSize]

/-- Witness for C10 (amended): a concrete non-exploration step with a
non-exploratory second selection materializes entries at both positions and
cannot raise the key-error. -/
theorem greedy_materializes_entries_witness :
    (⟨false, tR, false, tR⟩ : StepRand).explore = false ∧
    sarsaStep tBoard tStart ⟨5, 5⟩ 1 1 [tR, tL] ⟨false, tR, false, tR⟩ ⟨tStart, []⟩ =
      .ok ⟨tP10, [((tStart, tR), 1), ((tStart, tL), 1), ((tP10, tR), 1), ((tP10, tL), 1)]⟩ ∧
    (qlookup [((tStart, tR), 1), ((tStart, tL), 1), ((tP10, tR), 1), ((tP10, tL), 1)]
      (tStart, tL)).isSome = true ∧
    (qlookup [((tStart, tR), 1), ((tStart, tL), 1), ((tP10, tR), 1), ((tP10, tL), 1)]
      (tP10, tR)).isSome = true ∧
    (qlookup [((tStart, tR), 1), ((tStart, tL), 1), ((tP10, tR), 1), ((tP10, tL), 1)]
      (tP10, tL)).isSome = true ∧
    sarsaStep tBoard tStart ⟨5, 5⟩ 1 1 [tR, tL] ⟨false, tR, false, tR⟩ ⟨tStart, []⟩ ≠
      .error .keyError := by
  have hstep : sarsaStep tBoard tStart ⟨5, 5⟩ 1 1 [tR, tL] ⟨false, tR, false, tR⟩
      ⟨tStart, []⟩ =
      .ok ⟨tP10, [((tStart, tR), 1), ((tStart, tL), 1), ((tP10, tR), 1), ((tP10, tL), 1)]⟩ := by
    norm_num [sarsaStep, ebind_ok, ebind_error, greedySelect, epsGreedySelect,
      qsetdefaultList, qsetdefault, qlookup, max_arg, maxArgLoop, Board.move,
      Board.off_board, Board.restrict_to_board, Position.move, Move.add,
      default_action_value, qset, tBoard, tStart, tP10, tR, tL, Board.ofSize]
  have h := greedy_materializes_entries tBoard tStart ⟨5, 5⟩ 1 1 [tR, tL]
    ⟨false, tR, false, tR⟩ ⟨tStart, []⟩
    ⟨tP10, [((tStart, tR), 1), ((tStart, tL), 1), ((tP10, tR), 1), ((tP10, tL), 1)]⟩
    (tR, tQ1) (tR, [((tStart, tR), 1), ((tStart, tL), 1), ((tP10, tR), 1), ((tP10, tL), 1)])
    tP10 rfl hstep rfl rfl rfl
  exact ⟨rfl, hstep, h.1 tL (by simp), h.2.1, h.2.2.1 rfl tL (by simp),
    h.2.2.2 tBoard ⟨tStart, []⟩⟩

/-! ### The invalid-position branch is unreachable from an in-bounds start -/

lemma sarsaStep_no_invalid (board : Board) (start_pos goal_pos : Position)
    (alpha gamma : ℚ) (allowed_moves : List Move) (r : StepRand) (s : StratState)
    (hstart : inBounds board start_pos) (hpos : inBounds board s.pos) :
    sarsaStep board start_pos goal_pos alpha gamma allowed_moves r s ≠
      .error .invalidPosition ∧
    ∀ s', sarsaStep board start_pos goal_pos alpha gamma allowed_moves r s = .ok s' →
      inBounds board s'.pos := by
  by_cases hr : r.explore
  · simp only [sarsaStep, hr, if_true]
    by_cases hemp : allowed_moves.isEmpty
    · rw [if_pos hemp]
      exact ⟨by simp, fun s' h => by simp at h⟩
    · rw [if_neg hemp]
      refine ⟨by simp, fun s' h => ?_⟩
      injection h with h1
      rw [← h1]
      exact hpos
  · simp only [sarsaStep, hr, Bool.false_eq_true, if_false]
    cases hg : greedySelect s.Q s.pos allowed_moves with
    | error e =>
      rw [ebind_error, greedySelect_error_eq hg]
      exact ⟨by simp, fun s' h => by simp at h⟩
    | ok c =>
      rw [ebind_ok]
      rw [move_ok_of_inBounds hpos c.1, ebind_ok]
      have hqb : inBounds board
          ⟨min board.max_x (max 0 (s.pos.x + c.1.dx + (board.wind s.pos).dx)),
           min board.max_y (max 0 (s.pos.y + c.1.dy + (board.wind s.pos).dy))⟩ :=
        move_result_inBounds hpos (move_ok_of_inBounds hpos c.1)
      cases he : epsGreedySelect c.2
          ⟨min board.max_x (max 0 (s.pos.x + c.1.dx + (board.wind s.pos).dx)),
           min board.max_y (max 0 (s.pos.y + c.1.dy + (board.wind s.pos).dy))⟩
          allowed_moves r.explore2 r.explore2Move with
      | error e =>
        rw [ebind_error, epsGreedySelect_error_eq he]
        exact ⟨by simp, fun s' h => by simp at h⟩
      | ok n =>
        rw [ebind_ok]
        cases hl : qlookup (qsetdefault n.2
            (⟨min board.max_x (max 0 (s.pos.x + c.1.dx + (board.wind s.pos).dx)),
              min board.max_y (max 0 (s.pos.y + c.1.dy + (board.wind s.pos).dy))⟩, n.1)
            default_action_value).2 (s.pos, c.1) with
        | none => exact ⟨by simp, fun s' h => by simp at h⟩
        | some cur =>
          refine ⟨by simp, fun s' h => ?_⟩
          injection h with h1
          rw [← h1]
          by_cases hgoal : (⟨min board.max_x (max 0 (s.pos.x + c.1.dx + (board.wind s.pos).dx)),
              min board.max_y (max 0 (s.pos.y + c.1.dy + (board.wind s.pos).dy))⟩ : Position)
              = goal_pos
          · simp only [if_pos hgoal]
            exact hstart
          · simp only [if_neg hgoal]
            exact hqb

lemma runSteps_no_invalid (board : Board) (start_pos goal_pos : Position)
    (alpha gamma : ℚ) (allowed_moves : List Move) (rands : List StepRand) :
    ∀ s : StratState, inBounds board start_pos → inBounds board s.pos →
      runSteps board start_pos goal_pos alpha gamma allowed_moves rands s ≠
        .error .invalidPosition ∧
      ∀ s', runSteps board start_pos goal_pos alpha gamma allowed_moves rands s = .ok s' →
        inBounds board s'.pos := by
  induction rands with
  | nil =>
    intro s _ hpos
    refine ⟨by rw [runSteps]; simp, fun s' h => ?_⟩
    rw [runSteps] at h
    injection h with h1
    rw [← h1]
    exact hpos
  | cons r rest ih =>
    intro s hstart hpos
    obtain ⟨hne, hok⟩ := sarsaStep_no_invalid board start_pos goal_pos alpha gamma
      allowed_moves r s hstart hpos
    rw [runSteps]
    cases hstep : sarsaStep board start_pos goal_pos alpha gamma allowed_moves r s with
    | error e =>
      rw [ebind_error]
      refine ⟨fun h => ?_, fun s' h => by simp at h⟩
      injection h with h1
      rw [h1] at hstep
      exact hne hstep
    | ok s1 =>
      rw [ebind_ok]
      exact ih s1 hstart (hok s1 hstep)

/-- C7: from an in-bounds start position, a run of the control loop never
hits the transition model's invalid-position error, and the episode
position reached after any prefix of the run's steps (hence at every step)
lies inside `[0, max_x] × [0, max_y]`. -/
theorem loop_never_invalid_position (board : Board) (start_pos goal_pos : Position)
    (alpha gamma : ℚ) (allowed_moves : List Move) (rands : List StepRand)
    (h : inBounds board start_pos) :
    generate_strategy board start_pos goal_pos alpha gamma allowed_moves rands ≠
      .error .invalidPosition ∧
    ∀ rands1 s1, (∃ rands2, rands = rands1 ++ rands2) →
      runSteps board start_pos goal_pos alpha gamma allowed_moves rands1
        ⟨start_pos, []⟩ = .ok s1 →
      inBounds board s1.pos := by
  constructor
  · exact (runSteps_no_invalid board start_pos goal_pos alpha gamma allowed_moves rands
      ⟨start_pos, []⟩ h h).1
  · intro rands1 s1 _ hrun
    exact (runSteps_no_invalid board start_pos goal_pos alpha gamma allowed_moves rands1
      ⟨start_pos, []⟩ h h).2 s1 hrun

/-- Witness for C7 on a concrete two-step run. -/
theorem loop_never_invalid_position_witness :
    inBounds tBoard tStart ∧
    generate_strategy tBoard tStart tGoal 1 1 [tR, tL]
      [⟨true, tR, false, tR⟩, ⟨true, tL, false, tL⟩] ≠ .error .invalidPosition ∧
    inBounds tBoard (⟨tStart, []⟩ : StratState).pos := by
  have h := loop_never_invalid_position tBoard tStart tGoal 1 1 [tR, tL]
    [⟨true, tR, false, tR⟩, ⟨true, tL, false, tL⟩] (by decide)
  refine ⟨by decide, h.1, ?_⟩
  exact h.2 [] ⟨tStart, []⟩ ⟨[⟨true, tR, false, tR⟩, ⟨true, tL, false, tL⟩], rfl⟩ rfl

/-! ### All estimates the control loop produces stay nonnegative -/

/-- Every value stored in the table is nonnegative. -/
def QNonneg (Q : QTable) : Prop := ∀ k v, qlookup Q k = some v → 0 ≤ v

lemma qlookup_append (Q X : QTable) (key : QKey) :
    qlookup (Q ++ X) key = match qlookup Q key with
      | some v => some v
      | none => qlookup X key := by
  induction Q with
  | nil => simp [qlookup]
  | cons kv rest ih =>
    obtain ⟨k0, v0⟩ := kv
    rw [List.cons_append, qlookup, qlookup]
    by_cases hk : k0 = key
    · rw [if_pos hk, if_pos hk]
    · rw [if_neg hk, if_neg hk]; exact ih

lemma QNonneg_append {Q : QTable} {k : QKey} {d : ℚ} (hQ : QNonneg Q) (hd : 0 ≤ d) :
    QNonneg (Q ++ [(k, d)]) := by
  intro key v hkv
  rw [qlookup_append] at hkv
  cases hq : qlookup Q key with
  | some w => rw [hq] at hkv; injection hkv with h1; rw [← h1]; exact hQ key w hq
  | none =>
    rw [hq] at hkv
    dsimp only at hkv
    rw [qlookup] at hkv
    by_cases hk : k = key
    · rw [if_pos hk] at hkv; injection hkv with h1; rw [← h1]; exact hd
    · rw [if_neg hk] at hkv; simp [qlookup] at hkv

lemma QNonneg_qsetdefault {Q : QTable} {k : QKey} {d : ℚ} (hQ : QNonneg Q)
    (hd : 0 ≤ d) : QNonneg (qsetdefault Q k d).2 := by
  rw [qsetdefault]
  cases hq : qlookup Q k with
  | some v => exact hQ
  | none => exact QNonneg_append hQ hd

lemma qsetdefault_fst_nonneg {Q : QTable} {k : QKey} {d : ℚ} (hQ : QNonneg Q)
    (hd : 0 ≤ d) : 0 ≤ (qsetdefault Q k d).1 := by
  rw [qsetdefault]
  cases hq : qlookup Q k with
  | some v => exact hQ k v hq
  | none => exact hd

lemma QNonneg_qsetdefaultList {Q : QTable} {pos : Position} {moves : List Move}
    {d : ℚ} (hQ : QNonneg Q) (hd : 0 ≤ d) :
    QNonneg (qsetdefaultList Q pos moves d).2 := by
  induction moves generalizing Q with
  | nil => exact hQ
  | cons m rest ih =>
    rw [qsetdefaultList]
    exact ih (QNonneg_qsetdefault hQ hd)

lemma QNonneg_qset {Q : QTable} {k : QKey} {v : ℚ} (hQ : QNonneg Q) (hv : 0 ≤ v) :
    QNonneg (qset Q k v) := by
  intro key w hkw
  by_cases hk : key = k
  · subst hk
    rw [qset_lookup_self] at hkw
    injection hkw with h1
    rw [← h1]
    exact hv
  · rw [qset_lookup_other Q k key v hk] at hkw
    exact hQ key w hkw

lemma QNonneg_greedySelect {Q : QTable} {pos : Position} {al : List Move}
    {c : Move × QTable} (hc : greedySelect Q pos al = .ok c) (hQ : QNonneg Q) :
    QNonneg c.2 := by
  rw [(greedySelect_ok_parts hc).1]
  exact QNonneg_qsetdefaultList hQ (by norm_num [default_action_value])

lemma QNonneg_epsGreedySelect {Q : QTable} {pos : Position} {al : List Move}
    {ex : Bool} {rm : Move} {n : Move × QTable}
    (hn : epsGreedySelect Q pos al ex rm = .ok n) (hQ : QNonneg Q) :
    QNonneg n.2 := by
  rw [epsGreedySelect] at hn
  cases ex with
  | true =>
    rw [if_pos rfl] at hn
    by_cases hemp : al.isEmpty
    · rw [if_pos hemp] at hn; simp at hn
    · rw [if_neg hemp] at hn
      injection hn with h1
      rw [← h1]
      exact hQ
  | false =>
    rw [if_neg (by simp)] at hn
    exact QNonneg_greedySelect hn hQ

lemma QNonneg_sarsaStep {board : Board} {start_pos goal_pos : Position}
    {alpha gamma : ℚ} {al : List Move} {r : StepRand} {s s' : StratState}
    (ha0 : 0 ≤ alpha) (ha1 : alpha ≤ 1) (hg0 : 0 ≤ gamma)
    (hstep : sarsaStep board start_pos goal_pos alpha gamma al r s = .ok s')
    (hQ : QNonneg s.Q) : QNonneg s'.Q := by
  by_cases hr : r.explore
  · simp only [sarsaStep, hr, if_true] at hstep
    by_cases hemp : al.isEmpty
    · rw [if_pos hemp] at hstep; simp at hstep
    · rw [if_neg hemp] at hstep
      injection hstep with h1
      rw [← h1]
      exact hQ
  · obtain ⟨c, n, q, cur, hg, hm, he, hl, hs'⟩ :=
      sarsaStep_exploit_inv board start_pos goal_pos alpha gamma al r s s'
        (by simpa using hr) hstep
    have hQm : QNonneg (qsetdefault n.2 (q, n.1) default_action_value).2 :=
      QNonneg_qsetdefault (QNonneg_epsGreedySelect he (QNonneg_greedySelect hg hQ))
        (by norm_num [default_action_value])
    have hcur : 0 ≤ cur := hQm (s.pos, c.1) cur hl
    have hnpv : 0 ≤ (qsetdefault n.2 (q, n.1) default_action_value).1 :=
      qsetdefault_fst_nonneg (QNonneg_epsGreedySelect he (QNonneg_greedySelect hg hQ))
        (by norm_num [default_action_value])
    rw [hs']
    refine QNonneg_qset hQm ?_
    have hbonus : 0 ≤ (if q = goal_pos then alpha * 100 else 0) := by
      by_cases hq : q = goal_pos
      · rw [if_pos hq]; positivity
      · rw [if_neg hq]
    have hkey : cur + (alpha * (gamma * (qsetdefault n.2 (q, n.1) default_action_value).1 - cur) +
        (if q = goal_pos then alpha * 100 else 0)) =
        (1 - alpha) * cur + alpha * (gamma * (qsetdefault n.2 (q, n.1) default_action_value).1) +
        (if q = goal_pos then alpha * 100 else 0) := by ring
    rw [hkey]
    have h1 : 0 ≤ (1 - alpha) * cur := mul_nonneg (by linarith) hcur
    have h2 : 0 ≤ alpha * (gamma * (qsetdefault n.2 (q, n.1) default_action_value).1) :=
      mul_nonneg ha0 (mul_nonneg hg0 hnpv)
    linarith

lemma QNonneg_runSteps {board : Board} {start_pos goal_pos : Position}
    {alpha gamma : ℚ} {al : List Move} (ha0 : 0 ≤ alpha) (ha1 : alpha ≤ 1)
    (hg0 : 0 ≤ gamma) (rands : List StepRand) :
    ∀ s s' : StratState,
      runSteps board start_pos goal_pos alpha gamma al rands s = .ok s' →
      QNonneg s.Q → QNonneg s'.Q := by
  induction rands with
  | nil =>
    intro s s' h hQ
    rw [runSteps] at h
    injection h with h1
    rw [← h1]
    exact hQ
  | cons r rest ih =>
    intro s s' h hQ
    rw [runSteps] at h
    cases hstep : sarsaStep board start_pos goal_pos alpha gamma al r s with
    | error e => rw [hstep, ebind_error] at h; simp at h
    | ok s1 =>
      rw [hstep, ebind_ok] at h
      exact ih s1 s' h (QNonneg_sarsaStep ha0 ha1 hg0 hstep hQ)

/-! ### Renderer: the unknown marker and the maximizing symbol -/

lemma init_le_foldl_max (l : List ℚ) : ∀ a : ℚ, a ≤ l.foldl max a := by
  induction l with
  | nil => intro a; exact le_refl a
  | cons w l' ih =>
    intro a
    rw [List.foldl_cons]
    exact le_trans (le_max_left a w) (ih (max a w))

lemma mem_le_foldl_max (l : List ℚ) : ∀ (a x : ℚ), x ∈ l → x ≤ l.foldl max a := by
  induction l with
  | nil => intro a x hx; simp at hx
  | cons w l' ih =>
    intro a x hx
    rw [List.foldl_cons]
    rcases List.mem_cons.mp hx with h0 | h1
    · subst h0
      exact le_trans (le_max_right a x) (init_le_foldl_max l' (max a x))
    · exact ih (max a w) x h1

lemma foldl_max_eq_of_all (l : List ℚ) : ∀ (a c : ℚ), a = c → (∀ x ∈ l, x = c) →
    l.foldl max a = c := by
  induction l with
  | nil => intro a c ha _; exact ha
  | cons w l' ih =>
    intro a c ha hall
    rw [List.foldl_cons]
    refine ih (max a w) c ?_ (fun x hx => hall x (List.mem_cons_of_mem w hx))
    rw [ha, hall w (List.mem_cons_self w l')]
    exact max_self c

lemma symLookup_of_mem {msm : List (Move × String)} {m : Move}
    (h : m ∈ symKeys msm) : ∃ s, symLookup msm m = some s ∧ (m, s) ∈ msm := by
  induction msm with
  | nil => simp [symKeys] at h
  | cons e rest ih =>
    obtain ⟨m0, s0⟩ := e
    rw [symLookup]
    by_cases hm : m0 = m
    · subst hm
      exact ⟨s0, by rw [if_pos rfl], List.mem_cons_self _ _⟩
    · rw [if_neg hm]
      have hmem : m ∈ symKeys rest := by
        rw [symKeys, List.map_cons] at h
        rcases List.mem_cons.mp h with h0 | h1
        · exact absurd h0.symm hm
        · exact h1
      obtain ⟨s, hs, hmem2⟩ := ih hmem
      exact ⟨s, hs, List.mem_cons_of_mem _ hmem2⟩

lemma policyVals_getD {Q : QTable} {al : List Move} {p : Position} {j : Nat}
    (hj : j < al.length) {m : Move} (hm : al.get? j = some m) :
    (policyVals Q al p).getD j 0 = qget Q (p, m) (-1) := by
  rw [policyVals, List.getD_eq_getD_get?, List.get?_map, hm]
  rfl


/-- Characterization of `print_policy.moveSymbol` away from the goal, for a
store whose values all exceed the -1 sentinel and a symbol map that does not
use the unknown marker itself. -/
lemma moveSymbol_spec (Q : QTable) (msm : List (Move × String)) (goal p : Position)
    (hgoal : p ≠ goal) (hne : symKeys msm ≠ [])
    (hsym : ∀ e ∈ msm, e.2 ≠ "*")
    (hQ : ∀ k v, qlookup Q k = some v → (-1 : ℚ) < v) :
    (moveSymbol Q msm goal p = some "*" ↔
      ∀ m ∈ symKeys msm, qlookup Q (p, m) = none) ∧
    ((¬ ∀ m ∈ symKeys msm, qlookup Q (p, m) = none) →
      ∃ i m, max_arg (policyVals Q (symKeys msm) p) = some i ∧
        (symKeys msm).get? i = some m ∧
        moveSymbol Q msm goal p = symLookup msm m ∧
        (∀ j, j < (policyVals Q (symKeys msm) p).length →
          (policyVals Q (symKeys msm) p).getD j 0 ≤
            (policyVals Q (symKeys msm) p).getD i 0) ∧
        (∀ j, j < i → (policyVals Q (symKeys msm) p).getD j 0 <
          (policyVals Q (symKeys msm) p).getD i 0)) := by
  have hvne : policyVals Q (symKeys msm) p ≠ [] := by
    rw [policyVals]
    exact fun hcon => hne (List.map_eq_nil.mp hcon)
  obtain ⟨v, vs, hv⟩ : ∃ v vs, policyVals Q (symKeys msm) p = v :: vs := by
    cases hpv : policyVals Q (symKeys msm) p with
    | nil => exact absurd hpv hvne
    | cons v vs => exact ⟨v, vs, rfl⟩
  have hstar : (∀ m ∈ symKeys msm, qlookup Q (p, m) = none) →
      moveSymbol Q msm goal p = some "*" := by
    intro hall
    have hallv : ∀ x ∈ policyVals Q (symKeys msm) p, x = (-1 : ℚ) := by
      intro x hx
      rw [policyVals] at hx
      obtain ⟨m, hm, hxm⟩ := List.mem_map.mp hx
      rw [← hxm, qget, hall m hm]
      rfl
    unfold moveSymbol
    rw [if_neg hgoal, hv]
    dsimp only
    rw [if_pos]
    refine foldl_max_eq_of_all vs v (-1) ?_ ?_
    · exact hallv v (by rw [hv]; exact List.mem_cons_self v vs)
    · intro x hx
      exact hallv x (by rw [hv]; exact List.mem_cons_of_mem v hx)
  have hsel : (¬ ∀ m ∈ symKeys msm, qlookup Q (p, m) = none) →
      ∃ i m, max_arg (policyVals Q (symKeys msm) p) = some i ∧
        (symKeys msm).get? i = some m ∧
        moveSymbol Q msm goal p = symLookup msm m ∧
        (∀ j, j < (policyVals Q (symKeys msm) p).length →
          (policyVals Q (symKeys msm) p).getD j 0 ≤
            (policyVals Q (symKeys msm) p).getD i 0) ∧
        (∀ j, j < i → (policyVals Q (symKeys msm) p).getD j 0 <
          (policyVals Q (symKeys msm) p).getD i 0) ∧
        moveSymbol Q msm goal p ≠ some "*" := by
    intro hall
    push_neg at hall
    obtain ⟨m0, hm0, hq0⟩ := hall
    have hx0 : (-1 : ℚ) < qget Q (p, m0) (-1) := by
      cases hq : qlookup Q (p, m0) with
      | none => exact absurd hq hq0
      | some w => rw [qget, hq]; exact hQ (p, m0) w hq
    have hx0mem : qget Q (p, m0) (-1) ∈ policyVals Q (symKeys msm) p := by
      rw [policyVals]
      exact List.mem_map.mpr ⟨m0, hm0, rfl⟩
    have hfold : vs.foldl max v ≠ -1 := by
      have hle : qget Q (p, m0) (-1) ≤ vs.foldl max v := by
        rw [hv] at hx0mem
        rcases List.mem_cons.mp hx0mem with h0 | h1
        · exact h0 ▸ init_le_foldl_max vs v
        · exact mem_le_foldl_max vs v _ h1
      intro hcon
      rw [hcon] at hle
      linarith
    obtain ⟨i, hma, hilt, hmax, hleast⟩ :=
      max_arg_spec (policyVals Q (symKeys msm) p) hvne
    have hlen : (policyVals Q (symKeys msm) p).length = (symKeys msm).length := by
      rw [policyVals, List.length_map]
    have hialt : i < (symKeys msm).length := by omega
    cases hgi : (symKeys msm).get? i with
    | none =>
      have := List.get?_eq_none.mp hgi
      omega
    | some m' =>
      have hm'mem : m' ∈ symKeys msm := List.get?_mem hgi
      obtain ⟨s, hslk, hsmem⟩ := symLookup_of_mem hm'mem
      have hma' : max_arg (v :: vs) = some i := by rw [← hv]; exact hma
      have hmoveeq : moveSymbol Q msm goal p = symLookup msm m' := by
        unfold moveSymbol
        rw [if_neg hgoal, hv]
        dsimp only
        rw [if_neg hfold, hma']
        dsimp only
        rw [hgi]
      refine ⟨i, m', hma, hgi, hmoveeq, hmax, hleast, ?_⟩
      rw [hmoveeq, hslk]
      intro hcon
      injection hcon with hsc
      exact hsym (m', s) hsmem hsc
  by_cases hall : ∀ m ∈ symKeys msm, qlookup Q (p, m) = none
  · refine ⟨⟨fun _ => hall, fun _ => hstar hall⟩, fun hcon => absurd hall hcon⟩
  · obtain ⟨i, m', hma, hgi, hmoveeq, hmax, hleast, hneq⟩ := hsel hall
    refine ⟨⟨fun hs => absurd hs hneq, fun hr => absurd hr hall⟩, ?_⟩
    intro _
    exact ⟨i, m', hma, hgi, hmoveeq, hmax, hleast⟩

lemma intRangeDown_get? (n : Int) (hn : 0 ≤ n) (i : Nat) (hi : i ≤ n.toNat) :
    (intRangeDown n).get? i = some (n - (i : Int)) := by
  rw [intRangeDown, if_neg (not_lt.mpr hn), List.get?_map, List.get?_range (by omega)]
  rfl

lemma intRangeUp_get? (n : Int) (hn : 0 ≤ n) (i : Nat) (hi : i ≤ n.toNat) :
    (intRangeUp n).get? i = some ((i : Nat) : Int) := by
  rw [intRangeUp, if_neg (not_lt.mpr hn), List.get?_map, List.get?_range (by omega)]
  rfl

lemma print_policy_cell (board : Board) (Q : QTable)
    (msm : List (Move × String)) (goal : Position)
    (hx : 0 ≤ board.max_x) (hy : 0 ≤ board.max_y) (i j : Nat)
    (hi : i ≤ board.max_y.toNat) (hj : j ≤ board.max_x.toNat) :
    ((print_policy board Q msm goal).getD i []).getD j none =
      moveSymbol Q msm goal ⟨(j : Int), board.max_y - (i : Int)⟩ := by
  have hrow : (print_policy board Q msm goal).getD i [] =
      (intRangeUp board.max_x).map
        (fun x => moveSymbol Q msm goal ⟨x, board.max_y - (i : Int)⟩) := by
    rw [print_policy, List.getD_eq_getD_get?, List.get?_map,
      intRangeDown_get? board.max_y hy i hi]
    rfl
  rw [hrow, List.getD_eq_getD_get?, List.get?_map, intRangeUp_get? board.max_x hx j hj]
  rfl

lemma print_policy_length (board : Board) (Q : QTable)
    (msm : List (Move × String)) (goal : Position) (hy : 0 ≤ board.max_y) :
    (print_policy board Q msm goal).length = board.max_y.toNat + 1 := by
  rw [print_policy, List.length_map, intRangeDown, if_neg (not_lt.mpr hy),
    List.length_map, List.length_range]

/-- C9: (1) every estimate a run of the control loop can produce is strictly
above the -1 sentinel (for the spec's parameter ranges); (2) at a non-goal
cell the renderer prints the unknown marker exactly when no allowed
displacement has a stored estimate there, and otherwise the symbol of the
displacement whose stored value is maximal (earliest on ties); (3) the
rendered grid has one row per y from `max_y` down to 0 and one column per x
from 0 to `max_x`. -/
theorem renderer_unknown_and_order :
    (∀ (board : Board) (start_pos goal_pos : Position) (alpha gamma : ℚ)
        (al : List Move) (rands : List StepRand) (s' : StratState),
      0 ≤ alpha → alpha ≤ 1 → 0 ≤ gamma →
      generate_strategy board start_pos goal_pos alpha gamma al rands = .ok s' →
      ∀ k v, qlookup s'.Q k = some v → (-1 : ℚ) < v) ∧
    (∀ (Q : QTable) (msm : List (Move × String)) (goal p : Position),
      p ≠ goal → symKeys msm ≠ [] → (∀ e ∈ msm, e.2 ≠ "*") →
      (∀ k v, qlookup Q k = some v → (-1 : ℚ) < v) →
      (moveSymbol Q msm goal p = some "*" ↔
        ∀ m ∈ symKeys msm, qlookup Q (p, m) = none) ∧
      ((¬ ∀ m ∈ symKeys msm, qlookup Q (p, m) = none) →
        ∃ i m, max_arg (policyVals Q (symKeys msm) p) = some i ∧
          (symKeys msm).get? i = some m ∧
          moveSymbol Q msm goal p = symLookup msm m ∧
          (∀ j, j < (policyVals Q (symKeys msm) p).length →
            (policyVals Q (symKeys msm) p).getD j 0 ≤
              (policyVals Q (symKeys msm) p).getD i 0) ∧
          (∀ j, j < i → (policyVals Q (symKeys msm) p).getD j 0 <
            (policyVals Q (symKeys msm) p).getD i 0))) ∧
    (∀ (board : Board) (Q : QTable) (msm : List (Move × String)) (goal : Position),
      0 ≤ board.max_x → 0 ≤ board.max_y →
      (print_policy board Q msm goal).length = board.max_y.toNat + 1 ∧
      ∀ i j, i ≤ board.max_y.toNat → j ≤ board.max_x.toNat →
        ((print_policy board Q msm goal).getD i []).getD j none =
          moveSymbol Q msm goal ⟨(j : Int), board.max_y - (i : Int)⟩) := by
  refine ⟨?_, ?_, ?_⟩
  · intro board start_pos goal_pos alpha gamma al rands s' ha0 ha1 hg0 hrun k v hkv
    have hQ0 : QNonneg ([] : QTable) := by
      intro k0 v0 h0
      simp [qlookup] at h0
    have hQfin : QNonneg s'.Q :=
      QNonneg_runSteps ha0 ha1 hg0 rands ⟨start_pos, []⟩ s' hrun hQ0
    have := hQfin k v hkv
    linarith
  · intro Q msm goal p hgoal hne hsym hQ
    exact moveSymbol_spec Q msm goal p hgoal hne hsym hQ
  · intro board Q msm goal hx hy
    exact ⟨print_policy_length board Q msm goal hy,
      fun i j hi hj => print_policy_cell board Q msm goal hx hy i j hi hj⟩

/-- Fixture: a concrete symbol map for the renderer witnesses. -/
def tMsm : List (Move × String) := [(tL, "L"), (tR, "R")]

/-- Witness for C9: a one-step run yields only estimates above -1 (the entry
101 at (start, R)); on the empty store a non-goal cell renders the unknown
marker; and the top-left rendered cell is the cell (0, max_y). -/
theorem renderer_unknown_and_order_witness :
    generate_strategy tBoard tStart tGoal 1 1 [tR, tL] [⟨false, tR, true, tR⟩] =
      .ok ⟨tStart, tQfin⟩ ∧
    qlookup tQfin (tStart, tR) = some 101 ∧
    (-1 : ℚ) < 101 ∧
    moveSymbol [] tMsm tGoal tStart = some "*" ∧
    ((print_policy tBoard [] tMsm tGoal).getD 0 []).getD 0 none = some "*" := by
  have hrun : generate_strategy tBoard tStart tGoal 1 1 [tR, tL]
      [⟨false, tR, true, tR⟩] = .ok ⟨tStart, tQfin⟩ := by
    norm_num [generate_strategy, runSteps, sarsaStep, ebind_ok, ebind_error,
      greedySelect, epsGreedySelect, qsetdefaultList, qsetdefault, qlookup,
      max_arg, maxArgLoop, Board.move, Board.off_board, Board.restrict_to_board,
      Position.move, Move.add, default_action_value, qset, tBoard, tStart, tGoal,
      tR, tL, tQfin, Board.ofSize]
  refine ⟨hrun, rfl, ?_, ?_, ?_⟩
  · exact renderer_unknown_and_order.1 tBoard tStart tGoal 1 1 [tR, tL]
      [⟨false, tR, true, tR⟩] ⟨tStart, tQfin⟩ (by norm_num) (by norm_num)
      (by norm_num) hrun (tStart, tR) 101 rfl
  · refine (renderer_unknown_and_order.2.1 [] tMsm tGoal tStart (by decide)
      (by simp [symKeys, tMsm]) ?_ ?_).1.mpr ?_
    · intro e he
      simp only [tMsm, List.mem_cons] at he
      rcases he with h1 | h2 | h3
      · rw [h1]; simp
      · rw [h2]; simp
      · simp at h3
    · intro k v h
      simp [qlookup] at h
    · intro m _
      rfl
  · have h3 := (renderer_unknown_and_order.2.2 tBoard [] tMsm tGoal
      (by decide) (by decide)).2 0 0 (by decide) (by decide)
    exact h3.trans rfl
